import Mathlib

/-!
Shallow embedding of the availability-recovery subsystem
(`node/network/availability-recovery/src/lib.rs`).

External collaborators (the erasure codec and hash primitives, the
network bridge, the availability store, the session-info oracle) are
modelled as explicit parameters: the erasure-coding primitives form a
structure of total functions (fallible ones return `Option`), and
network/store responses are explicit oracle inputs, so every run of an
asynchronous loop is a pure function of its response trace.
Machine integers are modelled as `Nat`; no arithmetic here overflows.
-/

namespace AvailabilityRecovery

/-- Hashes (`Hash`, `CandidateHash`, Blake2-256 digests) are opaque 32-byte
values in the source; modelled as `Nat`. -/
abbrev Hash := Nat

/-- An opaque recovered payload (`AvailableData`); its structure is never
inspected by this subsystem. -/
abbrev AvailableData := Nat

/-- `ValidatorIndex` (a `u32` newtype in the source). -/
abbrev ValidatorIndex := Nat

/-- `ErasureChunk`: the chunk bytes, the chunk's index, and its Merkle proof.
Byte strings are modelled as `List Nat`. -/
structure ErasureChunk where
  chunk : List Nat
  index : ValidatorIndex
  proof : List Nat
deriving DecidableEq

/-- `RecoveryError` from `polkadot_subsystem::errors`. -/
inductive RecoveryError where
  | Unavailable
  | Invalid
deriving DecidableEq

/-- The erasure-coding and hashing primitives the subsystem imports
(`obtain_chunks_v1`, `branches(..).root()`, `branch_hash`,
`BlakeTwo256::hash`, `reconstruct_v1`). They live outside this repository,
so they are modelled abstractly as a structure of functions; the fallible
ones return `Option`. -/
structure ErasureCoding where
  obtain_chunks_v1 : Nat → AvailableData → Option (List (List Nat))
  branches_root : List (List Nat) → Hash
  branch_hash : Hash → List Nat → Nat → Option Hash
  blake2_256 : List Nat → Hash
  reconstruct_v1 : Nat → List (List Nat × Nat) → Option AvailableData

/-- `InteractionParams`: parameters of one recovery interaction.
Discovery keys and validator ids are opaque (`Nat`). -/
structure InteractionParams where
  validator_authority_keys : List Nat
  validators : List Nat
  threshold : Nat
  candidate_hash : Hash
  erasure_root : Hash
deriving DecidableEq

/-- `N_PARALLEL`: how many parallel chunk requests an interaction keeps going. -/
def N_PARALLEL : Nat := 50

/-- `LRU_SIZE`: capacity of the cache of recovered data. -/
def LRU_SIZE : Nat := 16

/-- The free function `is_unavailable`. -/
def is_unavailable (received_chunks requesting_chunks unrequested_validators threshold : Nat) :
    Bool :=
  decide (received_chunks + requesting_chunks + unrequested_validators < threshold)

/-- The free function `reconstructed_data_matches_root`: re-encode the data
with `obtain_chunks_v1` (an encoding error yields `false`) and compare the
Merkle root of the branches with the expected erasure root. -/
def reconstructed_data_matches_root (c : ErasureCoding) (n_validators : Nat)
    (expected_root : Hash) (data : AvailableData) : Bool :=
  match c.obtain_chunks_v1 n_validators data with
  | some chunks => c.branches_root chunks == expected_root
  | none => false

/-- Responses a backer can give to an `AvailableDataFetchingRequest`:
`Ok(AvailableData(data))`, `Ok(NoSuchData)`, or a transport error
(`Err(e)` of any kind — the source treats all request errors alike here). -/
inductive AvailableDataFetchingResponse where
  | availableData (data : AvailableData)
  | noSuchData
  | fetchError
deriving DecidableEq

/-- Loop body of `RequestFromBackersPhase::run`. `Vec::pop` removes the
last element of `shuffled_backers`, so the loop consumes the vector from
the back; it is embedded structurally over the reversed vector, which the
wrapper `RequestFromBackersPhase.run` supplies. For each backer: if it
answers with a payload whose re-encoding matches the erasure root, return
it; on a root mismatch, `NoSuchData` or a transport error continue with
the next backer; with the list exhausted, fail with
`RecoveryError::Unavailable`. The per-backer network responses are the
oracle `resp`. -/
def backersLoop (c : ErasureCoding) (params : InteractionParams)
    (resp : ValidatorIndex → AvailableDataFetchingResponse) :
    List ValidatorIndex → Except RecoveryError AvailableData
  | [] => .error .Unavailable
  | validator_index :: rest =>
    match resp validator_index with
    | .availableData data =>
      if reconstructed_data_matches_root c params.validators.length params.erasure_root data then
        .ok data
      else
        backersLoop c params resp rest
    | .noSuchData => backersLoop c params resp rest
    | .fetchError => backersLoop c params resp rest

/-- `RequestFromBackersPhase::run`: tries the shuffled backers one at a
time, popping from the back of the vector (hence the reversal). -/
def RequestFromBackersPhase.run (c : ErasureCoding) (params : InteractionParams)
    (resp : ValidatorIndex → AvailableDataFetchingResponse)
    (shuffled_backers : List ValidatorIndex) : Except RecoveryError AvailableData :=
  backersLoop c params resp shuffled_backers.reverse

/-- `RequestChunksPhase`: the mutable state of the chunks phase.
`shuffling` is the `VecDeque<ValidatorIndex>` of not-yet-contacted
validators, kept front-first. `received_chunks` is the
`HashMap<ValidatorIndex, ErasureChunk>`, modelled as an association list
with distinct keys maintained by `mapInsert`. `requesting_chunks` is the
`FuturesUnordered` of in-flight requests; only its length is ever read
(each completed future carries the data the handler needs), so it is
modelled by its length. -/
structure RequestChunksPhase where
  shuffling : List ValidatorIndex
  received_chunks : List (ValidatorIndex × ErasureChunk)
  requesting_chunks : Nat
deriving DecidableEq

/-- `RequestChunksPhase::new`: fresh state over `n_validators` validators.
The source shuffles `0..n_validators` with a thread-local RNG; the shuffle
is modelled as the identity permutation (no claim depends on the order). -/
def RequestChunksPhase.new (n_validators : Nat) : RequestChunksPhase :=
  { shuffling := List.range n_validators
    received_chunks := []
    requesting_chunks := 0 }

/-- `HashMap::insert`: replace the entry with key `k` when present,
otherwise prepend a new entry. -/
def mapInsert (k : ValidatorIndex) (v : ErasureChunk)
    (m : List (ValidatorIndex × ErasureChunk)) : List (ValidatorIndex × ErasureChunk) :=
  if m.any (fun p => p.1 == k) then
    m.map (fun p => if p.1 == k then (k, v) else p)
  else
    (k, v) :: m

/-- `RequestChunksPhase::is_unavailable`. -/
def RequestChunksPhase.is_unavailable (st : RequestChunksPhase)
    (params : InteractionParams) : Bool :=
  AvailabilityRecovery.is_unavailable st.received_chunks.length st.requesting_chunks
    st.shuffling.length params.threshold

/-- `RequestChunksPhase::can_conclude`. -/
def RequestChunksPhase.can_conclude (st : RequestChunksPhase)
    (params : InteractionParams) : Bool :=
  decide (params.threshold ≤ st.received_chunks.length) || st.is_unavailable params

/-- Refill loop of `RequestChunksPhase::launch_parallel_requests`: while
fewer than `max_requests` requests are in flight, pop a validator from the
back of the shuffling deque and issue a `ChunkFetchingRequest` for it
(issuing is a network effect; here it only moves the validator from the
deque into the in-flight count). The deque is consumed from the back, so
the loop is embedded structurally over the reversed deque; the wrapper
reverses back the remainder. -/
def launchFrom (max_requests : Nat) :
    Nat → List ValidatorIndex → List ValidatorIndex × Nat
  | requesting, [] => ([], requesting)
  | requesting, validator_index :: rest =>
    if requesting < max_requests then
      launchFrom max_requests (requesting + 1) rest
    else
      (validator_index :: rest, requesting)

/-- `RequestChunksPhase::launch_parallel_requests` with
`max_requests = min(N_PARALLEL, threshold)`. -/
def RequestChunksPhase.launch_parallel_requests (st : RequestChunksPhase)
    (params : InteractionParams) : RequestChunksPhase :=
  let max_requests := min N_PARALLEL params.threshold
  let popped := launchFrom max_requests st.requesting_chunks st.shuffling.reverse
  { st with shuffling := popped.1.reverse, requesting_chunks := popped.2 }

/-- `RequestError` as matched in `wait_for_chunks`: `InvalidResponse`
versus the transport failures `NetworkError` and `Canceled`. -/
inductive RequestError where
  | invalidResponse
  | networkError
  | canceled
deriving DecidableEq

/-- The output of one completed chunk-request future, i.e. the
`Result<Option<ErasureChunk>, (ValidatorIndex, RequestError)>` matched in
`wait_for_chunks`: a chunk (with the request's index already spliced in by
`recombine_into_chunk`), `NoSuchChunk`, or a request error tagged with the
requested validator's index. -/
inductive ChunkRequestResult where
  | chunk (chunk : ErasureChunk)
  | noSuchChunk
  | requestError (validator_index : ValidatorIndex) (e : RequestError)
deriving DecidableEq

/-- The per-completion body of `RequestChunksPhase::wait_for_chunks`:
a received chunk is inserted into `received_chunks` only if
`branch_hash(erasure_root, proof, index)` succeeds and equals the
Blake2-256 hash of the chunk bytes (otherwise it is discarded silently);
`NoSuchChunk` and `InvalidResponse` drop the validator; `NetworkError`
and `Canceled` push the validator's index back onto the front of the
shuffling deque. -/
def handle_request_result (c : ErasureCoding) (params : InteractionParams)
    (st : RequestChunksPhase) : ChunkRequestResult → RequestChunksPhase
  | .chunk chunk =>
    let validator_index := chunk.index
    match c.branch_hash params.erasure_root chunk.proof chunk.index with
    | some anticipated_hash =>
      if c.blake2_256 chunk.chunk == anticipated_hash then
        { st with received_chunks := mapInsert validator_index chunk st.received_chunks }
      else
        st
    | none => st
  | .noSuchChunk => st
  | .requestError _ .invalidResponse => st
  | .requestError validator_index .networkError =>
    { st with shuffling := validator_index :: st.shuffling }
  | .requestError validator_index .canceled =>
    { st with shuffling := validator_index :: st.shuffling }

/-- One step of the wave in `wait_for_chunks` as seen by the awaiting loop:
either the 1-second `MAX_CHUNK_WAIT` deadline fires with no completion, or
some in-flight request completes with a `ChunkRequestResult`. -/
inductive WaveEvent where
  | timeout
  | completed (r : ChunkRequestResult)
deriving DecidableEq

/-- `RequestChunksPhase::wait_for_chunks` over an oracle trace of wave
events. The `while let Some(..) = requesting_chunks.next().timeout(..)`
loop exits when the `FuturesUnordered` is empty (its `next()` yields
`None`), when the deadline fires, when the trace runs out, or — after
processing a completion (which removes the completed future, hence
decrements `requesting_chunks`) — when `can_conclude` holds. -/
def RequestChunksPhase.wait_for_chunks (c : ErasureCoding) (params : InteractionParams) :
    RequestChunksPhase → List WaveEvent → RequestChunksPhase
  | st, [] => st
  | st, ev :: rest =>
    if st.requesting_chunks = 0 then st
    else
      match ev with
      | .timeout => st
      | .completed r =>
        let st' := handle_request_result c params
          { st with requesting_chunks := st.requesting_chunks - 1 } r
        if st'.can_conclude params then st'
        else RequestChunksPhase.wait_for_chunks c params st' rest

/-- The reconstruction attempt at the end of `RequestChunksPhase::run`
once `received_chunks` reaches the threshold: `reconstruct_v1` over the
collected `(chunk bytes, index)` pairs; a reconstruction error is
`Invalid`; otherwise the data is re-encoded and checked against the
erasure root, `Invalid` on mismatch. -/
def attempt_recovery (c : ErasureCoding) (params : InteractionParams)
    (st : RequestChunksPhase) : Except RecoveryError AvailableData :=
  match c.reconstruct_v1 params.validators.length
      (st.received_chunks.map (fun p => (p.2.chunk, p.2.index))) with
  | some data =>
    if reconstructed_data_matches_root c params.validators.length params.erasure_root data then
      .ok data
    else
      .error .Invalid
  | none => .error .Invalid

/-- The main loop of `RequestChunksPhase::run`, one trace of wave events
per iteration: check `is_unavailable`; refill request slots; wait for a
wave of completions; if the threshold is reached attempt reconstruction,
otherwise loop. Returns the result together with the final state, or
`none` when the oracle trace is exhausted before the loop concludes. -/
def RequestChunksPhase.run_loop (c : ErasureCoding) (params : InteractionParams) :
    RequestChunksPhase → List (List WaveEvent) →
      Option (Except RecoveryError AvailableData × RequestChunksPhase)
  | st, waves =>
    if st.is_unavailable params then some (.error .Unavailable, st)
    else
      match waves with
      | [] => none
      | wave :: rest =>
        let st1 := st.launch_parallel_requests params
        let st2 := RequestChunksPhase.wait_for_chunks c params st1 wave
        if params.threshold ≤ st2.received_chunks.length then
          some (attempt_recovery c params st2, st2)
        else
          RequestChunksPhase.run_loop c params st2 rest

/-- The store-seeding prologue of `RequestChunksPhase::run`: on a
`QueryAllChunks` response, drop the returned chunks' indices from the
shuffling deque (`retain`) and insert each chunk into `received_chunks` —
with no Merkle verification. -/
def seed_from_store (chunks : List ErasureChunk) (st : RequestChunksPhase) :
    RequestChunksPhase :=
  let chunk_indices := chunks.map (fun c => c.index)
  { st with
    shuffling := st.shuffling.filter (fun i => !(chunk_indices.contains i))
    received_chunks := chunks.foldl (fun m ch => mapInsert ch.index ch m) st.received_chunks }

/-- `RequestChunksPhase::run`: query the availability store for locally
held chunks (`none` models the `oneshot::Canceled` miss, which seeds
nothing), then enter the main loop. -/
def RequestChunksPhase.run (c : ErasureCoding) (params : InteractionParams)
    (store_chunks : Option (List ErasureChunk)) (st : RequestChunksPhase)
    (waves : List (List WaveEvent)) :
    Option (Except RecoveryError AvailableData × RequestChunksPhase) :=
  let seeded := match store_chunks with
    | some chunks => seed_from_store chunks st
    | none => st
  RequestChunksPhase.run_loop c params seeded waves

/-- `InteractionPhase`: the tagged phase of a recovery interaction. -/
inductive InteractionPhase where
  | requestFromBackers (shuffled_backers : List ValidatorIndex)
  | requestChunks (from_all : RequestChunksPhase)
deriving DecidableEq

/-- Rank used to show the phase loop of `Interaction::run` terminates: the
only repeated transition is backers to chunks. -/
def InteractionPhase.rank : InteractionPhase → Nat
  | .requestFromBackers _ => 1
  | .requestChunks _ => 0

/-- The phase loop of `Interaction::run`: in the backers phase, `Ok(data)`
and `Err(Invalid)` break the loop; `Err(Unavailable)` replaces the phase
with a fresh `RequestChunksPhase::new(validators.len())` and loops. In the
chunks phase the loop always breaks with that phase's result. The network
and store oracles (`backers_resp`, `store_chunks`, `waves`) are threaded
through; `none` means the chunk phase's oracle trace ran out. -/
def interaction_loop (c : ErasureCoding) (params : InteractionParams)
    (backers_resp : ValidatorIndex → AvailableDataFetchingResponse)
    (store_chunks : Option (List ErasureChunk)) (waves : List (List WaveEvent))
    (phase : InteractionPhase) : Option (Except RecoveryError AvailableData) :=
  match phase with
  | .requestFromBackers from_backers =>
    match RequestFromBackersPhase.run c params backers_resp from_backers with
    | .ok data => some (.ok data)
    | .error .Invalid => some (.error .Invalid)
    | .error .Unavailable =>
      interaction_loop c params backers_resp store_chunks waves
        (.requestChunks (RequestChunksPhase.new params.validators.length))
  | .requestChunks from_all =>
    (RequestChunksPhase.run c params store_chunks from_all waves).map (fun p => p.1)
termination_by phase.rank
decreasing_by simp [InteractionPhase.rank]

/-- `Interaction::run`: first query the availability store for the full
payload (`QueryAvailableData`); `Ok(Some(data))` returns it immediately
with no further check (`local_data = some data`; `Ok(None)` and
`Err(Canceled)` both fall through and are modelled by `none`); otherwise
run the phase loop. -/
def Interaction.run (c : ErasureCoding) (params : InteractionParams)
    (local_data : Option AvailableData)
    (backers_resp : ValidatorIndex → AvailableDataFetchingResponse)
    (store_chunks : Option (List ErasureChunk)) (waves : List (List WaveEvent))
    (phase : InteractionPhase) : Option (Except RecoveryError AvailableData) :=
  match local_data with
  | some data => some (.ok data)
  | none => interaction_loop c params backers_resp store_chunks waves phase

deriving instance DecidableEq for Except

/-- One waiting side of a recovery: a `oneshot::Sender` for the result.
The only property of a sender the subsystem reads is whether its receiving
end has been dropped (`poll_canceled`), modelled by `canceled`. -/
structure Waiter where
  canceled : Bool
deriving DecidableEq

/-- `InteractionHandle`: a spawned recovery's candidate hash plus the
response senders of all awaiting callers. (The `RemoteHandle` to the
spawned future is modelled as the `remote` argument of `poll`.) -/
structure InteractionHandle where
  candidate_hash : Hash
  awaiting : List Waiter
deriving DecidableEq

/-- `Poll` from the futures task model. -/
inductive Poll (α : Type) where
  | ready (a : α)
  | pending
deriving DecidableEq

/-- `Future::poll` for `InteractionHandle`. First all senders whose
receivers were dropped are removed from `awaiting` (the source uses
`swap_remove`; only the surviving set matters, modelled as a filter). If
none survive, the handle completes with `None` — without polling the
remote future, whose `RemoteHandle` is thereby dropped. Otherwise, if the
spawned task has finished (`remote = some result`), the result is sent to
every surviving waiter and the handle completes with
`Some((candidate_hash, result))`; if not, the handle stays pending.
Returns the poll outcome paired with the list of waiters that were sent
the result (the broadcast). -/
def InteractionHandle.poll (h : InteractionHandle)
    (remote : Option (Except RecoveryError AvailableData)) :
    Poll (Option (Hash × Except RecoveryError AvailableData)) × List Waiter :=
  let live := h.awaiting.filter (fun w => !w.canceled)
  if live.isEmpty then (.ready none, [])
  else
    match remote with
    | none => (.pending, [])
    | some result => (.ready (some (h.candidate_hash, result)), live)

/-- An LRU cache (`lru::LruCache`), most-recently-used first, as built by
`lru_put`; keys are distinct. -/
abbrev Lru := List (Hash × Except RecoveryError AvailableData)

/-- `LruCache::put`: insert at the front, dropping any previous entry for
the key, and evict down to `LRU_SIZE` entries. -/
def lru_put (lru : Lru) (k : Hash) (v : Except RecoveryError AvailableData) : Lru :=
  ((k, v) :: lru.filter (fun p => !(p.1 == k))).take LRU_SIZE

/-- `LruCache::get`, the lookup part: the value stored under `k`. -/
def lru_get (lru : Lru) (k : Hash) : Option (Except RecoveryError AvailableData) :=
  (lru.find? (fun p => p.1 == k)).map (fun p => p.2)

/-- `LruCache::get`, the recency part: a hit promotes the entry to
most-recently-used. -/
def lru_touch (lru : Lru) (k : Hash) : Lru :=
  match lru.find? (fun p => p.1 == k) with
  | some p => p :: lru.filter (fun q => !(q.1 == k))
  | none => lru

/-- The `availability_lru` maintenance arm of the subsystem event loop
(`AvailabilityRecoverySubsystem::run`): when a completed
`InteractionHandle` yields `Some((candidate_hash, result))` the result is
cached; a `None` completion changes nothing. -/
def handle_interaction_output (lru : Lru)
    (output : Option (Hash × Except RecoveryError AvailableData)) : Lru :=
  match output with
  | some (candidate_hash, result) => lru_put lru candidate_hash result
  | none => lru

/-- The slice of `SessionInfo` the subsystem reads: validator ids, their
discovery keys, and the backing groups. -/
structure SessionInfoM where
  validators : List Nat
  discovery_keys : List Nat
  validator_groups : List (List ValidatorIndex)
deriving DecidableEq

/-- The filtering the event loop applies before `handle_recover`:
`maybe_backing_group.filter(|_| fast_path)`. -/
def filtered_backing_group (fast_path : Bool) (maybe_backing_group : Option Nat) :
    Option Nat :=
  if fast_path then maybe_backing_group else none

/-- The phase selection in `launch_interaction`: look the backing group
index up in the session's validator groups; on success start in the
backers phase with that group (the source shuffles the group before
requesting; modelled as the identity permutation), otherwise start in the
chunks phase over all validators. -/
def select_phase (session_info : SessionInfoM) (backing_group : Option Nat) :
    InteractionPhase :=
  match backing_group.bind (fun g => session_info.validator_groups.get? g) with
  | some group => .requestFromBackers group
  | none => .requestChunks (RequestChunksPhase.new session_info.validators.length)

/-- The coordinator state `State`: handles of the in-flight interactions
(a `FuturesUnordered`, modelled as a list), the live block anchor, and the
LRU of recently recovered data. -/
structure State where
  interactions : List InteractionHandle
  live_block : Nat × Hash
  availability_lru : Lru
deriving DecidableEq

/-- The externally observable effects of one `handle_recover` call:
what (if anything) was sent on the fresh response channel right away,
whether session info was requested, and whether a new interaction task
was launched (which is also the only path that issues network requests). -/
structure RecoverEffect where
  sent_response : Option (Except RecoveryError AvailableData)
  queried_session_info : Bool
  spawned_task : Bool
deriving DecidableEq

/-- The in-flight join of `handle_recover`: push the new response sender
onto the `awaiting` list of the first interaction handle with the given
candidate hash (`iter_mut().find(..)` followed by `push`). -/
def push_to_matching (candidate_hash : Hash) (w : Waiter) :
    List InteractionHandle → List InteractionHandle
  | [] => []
  | i :: rest =>
    if i.candidate_hash == candidate_hash then
      { i with awaiting := i.awaiting ++ [w] } :: rest
    else
      i :: push_to_matching candidate_hash w rest

/-- `handle_recover` followed, on the cold path, by `launch_interaction`:
1. on an LRU hit, send the cached result and return (the hit promotes the
entry's recency);
2. else, if an interaction for the candidate hash is already in flight,
push the response sender onto its waiter list and return;
3. else query session info: if present, register a new interaction handle
whose only waiter is the response sender and spawn the task; if absent,
send `Unavailable` back.
`session_info_resp` is the session-info oracle's answer, read only on the
cold path. -/
def handle_recover (st : State) (candidate_hash : Hash)
    (session_info_resp : Option SessionInfoM) (w : Waiter) : State × RecoverEffect :=
  match lru_get st.availability_lru candidate_hash with
  | some result =>
    ({ st with availability_lru := lru_touch st.availability_lru candidate_hash },
     { sent_response := some result, queried_session_info := false, spawned_task := false })
  | none =>
    if st.interactions.any (fun i => i.candidate_hash == candidate_hash) then
      ({ st with interactions := push_to_matching candidate_hash w st.interactions },
       { sent_response := none, queried_session_info := false, spawned_task := false })
    else
      match session_info_resp with
      | some _ =>
        ({ st with interactions :=
            st.interactions ++ [{ candidate_hash := candidate_hash, awaiting := [w] }] },
         { sent_response := none, queried_session_info := true, spawned_task := true })
      | none =>
        (st,
         { sent_response := some (.error .Unavailable), queried_session_info := true,
           spawned_task := false })

/-- The Merkle condition `wait_for_chunks` checks before inserting a
chunk: `branch_hash(erasure_root, proof, index)` succeeds and equals the
Blake2-256 hash of the chunk bytes. -/
def chunk_verified (c : ErasureCoding) (params : InteractionParams)
    (chunk : ErasureChunk) : Bool :=
  match c.branch_hash params.erasure_root chunk.proof chunk.index with
  | some anticipated_hash => c.blake2_256 chunk.chunk == anticipated_hash
  | none => false

/-- A codec instance for concrete executions in which every check passes:
encoding always yields root `0`, every Merkle branch hashes to `0`, and
reconstruction yields payload `7`. -/
def unitCodec : ErasureCoding :=
  { obtain_chunks_v1 := fun _ _ => some []
    branches_root := fun _ => 0
    branch_hash := fun _ _ _ => some 0
    blake2_256 := fun _ => 0
    reconstruct_v1 := fun _ _ => some 7 }

/-- A codec instance whose re-encoding root is `1`, so the root check
against an `erasure_root` of `0` always fails. -/
def badRootCodec : ErasureCoding := { unitCodec with branches_root := fun _ => 1 }

/-- A codec instance whose Blake2-256 digest (`1`) never matches the
branch hash (`0`), so no chunk passes the Merkle verification; and whose
reconstruction yields payload `0`. -/
def badHashCodec : ErasureCoding :=
  { unitCodec with blake2_256 := fun _ => 1, reconstruct_v1 := fun _ _ => some 0 }

/-- Concrete interaction parameters: one validator, threshold one,
erasure root `0`. -/
def params1 : InteractionParams :=
  { validator_authority_keys := [0], validators := [0], threshold := 1
    candidate_hash := 0, erasure_root := 0 }

/-- A concrete chunk with index `0`. -/
def ch0 : ErasureChunk := { chunk := [], index := 0, proof := [] }

/-- Helper: `backersLoop` either returns a payload that passes the root
check, or exhausts the backer list and reports `Unavailable`; it never
reports `Invalid`. -/
theorem backersLoop_cases (c : ErasureCoding) (params : InteractionParams)
    (resp : ValidatorIndex → AvailableDataFetchingResponse)
    (backers : List ValidatorIndex) :
    (∃ data, backersLoop c params resp backers = .ok data ∧
        reconstructed_data_matches_root c params.validators.length params.erasure_root data
          = true)
      ∨ backersLoop c params resp backers = .error .Unavailable := by
  induction backers with
  | nil => right; rfl
  | cons vi rest ih =>
    rcases hresp : resp vi with data | _ | _
    · by_cases hroot :
        reconstructed_data_matches_root c params.validators.length params.erasure_root data
          = true
      · exact Or.inl ⟨data, by simp [backersLoop, hresp, hroot], hroot⟩
      · simpa [backersLoop, hresp, hroot] using ih
    · simpa [backersLoop, hresp] using ih
    · simpa [backersLoop, hresp] using ih

/-- Helper: the same two-case analysis lifted through the pop-from-the-back
wrapper `RequestFromBackersPhase.run`. -/
theorem backers_run_cases (c : ErasureCoding) (params : InteractionParams)
    (resp : ValidatorIndex → AvailableDataFetchingResponse)
    (backers : List ValidatorIndex) :
    (∃ data, RequestFromBackersPhase.run c params resp backers = .ok data ∧
        reconstructed_data_matches_root c params.validators.length params.erasure_root data
          = true)
      ∨ RequestFromBackersPhase.run c params resp backers = .error .Unavailable :=
  backersLoop_cases c params resp backers.reverse

theorem mapInsert_mem {k : ValidatorIndex} {v : ErasureChunk}
    {m : List (ValidatorIndex × ErasureChunk)} {q : ValidatorIndex × ErasureChunk}
    (h : q ∈ mapInsert k v m) : q = (k, v) ∨ q ∈ m := by
  unfold mapInsert at h
  split at h
  · rcases List.mem_map.mp h with ⟨p, hp, hq⟩
    by_cases hk : p.1 == k
    · left; simp only [hk, if_pos] at hq; exact hq.symm
    · right; simp only [hk] at hq; exact hq ▸ hp
  · rcases List.mem_cons.mp h with h | h
    · left; exact h
    · right; exact h

theorem handle_request_result_mem (c : ErasureCoding) (params : InteractionParams)
    (st : RequestChunksPhase) (r : ChunkRequestResult)
    {q : ValidatorIndex × ErasureChunk}
    (h : q ∈ (handle_request_result c params st r).received_chunks) :
    q ∈ st.received_chunks ∨ chunk_verified c params q.2 = true := by
  cases r with
  | chunk ch =>
    simp only [handle_request_result] at h
    rcases hb : c.branch_hash params.erasure_root ch.proof ch.index with _ | ah
    · rw [hb] at h; exact Or.inl h
    · rw [hb] at h
      by_cases hh : c.blake2_256 ch.chunk == ah
      · simp only [hh, if_pos] at h
        rcases mapInsert_mem h with hq | hq
        · right
          rw [hq]
          unfold chunk_verified
          rw [hb]
          exact hh
        · exact Or.inl hq
      · simp only [hh] at h
        exact Or.inl h
  | noSuchChunk => exact Or.inl h
  | requestError vi e => cases e <;> exact Or.inl h

theorem wait_for_chunks_mem (c : ErasureCoding) (params : InteractionParams) :
    ∀ (evs : List WaveEvent) (st : RequestChunksPhase)
      {q : ValidatorIndex × ErasureChunk},
      q ∈ (RequestChunksPhase.wait_for_chunks c params st evs).received_chunks →
      q ∈ st.received_chunks ∨ chunk_verified c params q.2 = true := by
  intro evs
  induction evs with
  | nil => intro st q h; exact Or.inl h
  | cons ev rest ih =>
    intro st q h
    unfold RequestChunksPhase.wait_for_chunks at h
    by_cases h0 : st.requesting_chunks = 0
    · rw [if_pos h0] at h; exact Or.inl h
    · rw [if_neg h0] at h
      rcases ev with _ | r
      · exact Or.inl h
      · simp only at h
        split at h
        · rcases handle_request_result_mem c params
              { st with requesting_chunks := st.requesting_chunks - 1 } r h with h1 | h1
          · exact Or.inl h1
          · exact Or.inr h1
        · rcases ih _ h with hq | hq
          · rcases handle_request_result_mem c params
                { st with requesting_chunks := st.requesting_chunks - 1 } r hq with h1 | h1
            · exact Or.inl h1
            · exact Or.inr h1
          · exact Or.inr hq

theorem launch_received (st : RequestChunksPhase) (params : InteractionParams) :
    (st.launch_parallel_requests params).received_chunks = st.received_chunks := rfl

theorem attempt_recovery_cases (c : ErasureCoding) (params : InteractionParams)
    (st : RequestChunksPhase) :
    attempt_recovery c params st = .error .Invalid
      ∨ (∃ data, attempt_recovery c params st = .ok data ∧
          reconstructed_data_matches_root c params.validators.length params.erasure_root data
            = true) := by
  rcases hr : c.reconstruct_v1 params.validators.length
      (st.received_chunks.map (fun p => (p.2.chunk, p.2.index))) with _ | data
  · left; simp only [attempt_recovery, hr]
  · by_cases hm : reconstructed_data_matches_root c params.validators.length
        params.erasure_root data = true
    · exact Or.inr ⟨data, by simp only [attempt_recovery, hr, hm, if_pos], hm⟩
    · left; simp [attempt_recovery, hr, hm]

theorem attempt_recovery_ne_unavailable (c : ErasureCoding) (params : InteractionParams)
    (st : RequestChunksPhase) :
    attempt_recovery c params st ≠ .error .Unavailable := by
  rcases attempt_recovery_cases c params st with h | ⟨data, h, _⟩ <;> rw [h] <;> simp

theorem run_loop_cases (c : ErasureCoding) (params : InteractionParams) :
    ∀ (waves : List (List WaveEvent)) (st : RequestChunksPhase)
      {res : Except RecoveryError AvailableData} {stf : RequestChunksPhase},
      RequestChunksPhase.run_loop c params st waves = some (res, stf) →
      (res = .error .Unavailable ∧ stf.is_unavailable params = true)
        ∨ (params.threshold ≤ stf.received_chunks.length ∧
            res = attempt_recovery c params stf) := by
  intro waves
  induction waves with
  | nil =>
    intro st res stf h
    unfold RequestChunksPhase.run_loop at h
    by_cases hu : st.is_unavailable params
    · rw [if_pos hu] at h
      simp only [Option.some.injEq, Prod.mk.injEq] at h
      exact Or.inl ⟨h.1.symm, h.2 ▸ hu⟩
    · rw [if_neg hu] at h
      simp at h
  | cons wave rest ih =>
    intro st res stf h
    unfold RequestChunksPhase.run_loop at h
    by_cases hu : st.is_unavailable params
    · rw [if_pos hu] at h
      simp only [Option.some.injEq, Prod.mk.injEq] at h
      exact Or.inl ⟨h.1.symm, h.2 ▸ hu⟩
    · rw [if_neg hu] at h
      simp only at h
      split at h
      · simp only [Option.some.injEq, Prod.mk.injEq] at h
        right
        constructor
        · rw [← h.2]; assumption
        · rw [← h.1, ← h.2]
      · exact ih _ h

theorem run_loop_mem (c : ErasureCoding) (params : InteractionParams) :
    ∀ (waves : List (List WaveEvent)) (st : RequestChunksPhase)
      {res : Except RecoveryError AvailableData} {stf : RequestChunksPhase}
      {q : ValidatorIndex × ErasureChunk},
      RequestChunksPhase.run_loop c params st waves = some (res, stf) →
      q ∈ stf.received_chunks →
      q ∈ st.received_chunks ∨ chunk_verified c params q.2 = true := by
  intro waves
  induction waves with
  | nil =>
    intro st res stf q h hq
    unfold RequestChunksPhase.run_loop at h
    by_cases hu : st.is_unavailable params
    · rw [if_pos hu] at h
      simp only [Option.some.injEq, Prod.mk.injEq] at h
      exact Or.inl (h.2 ▸ hq)
    · rw [if_neg hu] at h; simp at h
  | cons wave rest ih =>
    intro st res stf q h hq
    unfold RequestChunksPhase.run_loop at h
    by_cases hu : st.is_unavailable params
    · rw [if_pos hu] at h
      simp only [Option.some.injEq, Prod.mk.injEq] at h
      exact Or.inl (h.2 ▸ hq)
    · rw [if_neg hu] at h
      simp only at h
      split at h
      · simp only [Option.some.injEq, Prod.mk.injEq] at h
        have := h.2 ▸ hq
        rcases wait_for_chunks_mem c params wave _ this with hw | hw
        · rw [launch_received] at hw; exact Or.inl hw
        · exact Or.inr hw
      · rcases ih _ h hq with hw | hw
        · rcases wait_for_chunks_mem c params wave _ hw with hw2 | hw2
          · rw [launch_received] at hw2; exact Or.inl hw2
          · exact Or.inr hw2
        · exact Or.inr hw

theorem seed_from_store_mem (chunks : List ErasureChunk) (st : RequestChunksPhase)
    {q : ValidatorIndex × ErasureChunk}
    (h : q ∈ (seed_from_store chunks st).received_chunks) :
    q ∈ st.received_chunks ∨ q.2 ∈ chunks := by
  unfold seed_from_store at h
  simp only at h
  induction chunks generalizing st with
  | nil => exact Or.inl h
  | cons ch rest ih =>
    rw [List.foldl_cons] at h
    rcases ih { st with received_chunks := mapInsert ch.index ch st.received_chunks } h with
      hq | hq
    · rcases mapInsert_mem hq with hq2 | hq2
      · right; rw [hq2]; exact List.mem_cons_self ch rest
      · exact Or.inl hq2
    · right; exact List.mem_cons_of_mem ch hq

theorem chunks_run_ok_matches (c : ErasureCoding) (params : InteractionParams)
    (store_chunks : Option (List ErasureChunk)) (st : RequestChunksPhase)
    (waves : List (List WaveEvent)) {data : AvailableData}
    (h : (RequestChunksPhase.run c params store_chunks st waves).map (fun p => p.1)
        = some (.ok data)) :
    reconstructed_data_matches_root c params.validators.length params.erasure_root data
      = true := by
  rcases hr : RequestChunksPhase.run c params store_chunks st waves with _ | ⟨res, stf⟩
  · rw [hr] at h; simp at h
  · rw [hr] at h
    simp only [Option.map, Option.some.injEq] at h
    unfold RequestChunksPhase.run at hr
    rcases run_loop_cases c params waves _ hr with ⟨hres, _⟩ | ⟨_, hres⟩
    · rw [h] at hres; simp at hres
    · rcases attempt_recovery_cases c params stf with ha | ⟨d, ha, hm⟩
      · rw [h, ha] at hres; simp at hres
      · rw [h, ha] at hres
        simp only [Except.ok.injEq] at hres
        exact hres ▸ hm

theorem interaction_loop_ok_matches (c : ErasureCoding) (params : InteractionParams)
    (backers_resp : ValidatorIndex → AvailableDataFetchingResponse)
    (store_chunks : Option (List ErasureChunk)) (waves : List (List WaveEvent))
    (phase : InteractionPhase) {data : AvailableData}
    (h : interaction_loop c params backers_resp store_chunks waves phase
        = some (.ok data)) :
    reconstructed_data_matches_root c params.validators.length params.erasure_root data
      = true := by
  cases phase with
  | requestChunks from_all =>
    unfold interaction_loop at h
    exact chunks_run_ok_matches c params store_chunks from_all waves h
  | requestFromBackers from_backers =>
    unfold interaction_loop at h
    rcases backers_run_cases c params backers_resp from_backers with ⟨d, hb, hm⟩ | hb
    · simp only [hb, Option.some.injEq, Except.ok.injEq] at h
      exact h ▸ hm
    · simp only [hb] at h
      unfold interaction_loop at h
      exact chunks_run_ok_matches c params store_chunks _ waves h

theorem find_filter_key_perm (k : Hash) :
    ∀ (l : Lru) (q : Hash × Except RecoveryError AvailableData),
      (l.map (fun p => p.1)).Nodup → l.find? (fun x => x.1 == k) = some q →
      (q :: l.filter (fun x => !(x.1 == k))).Perm l := by
  intro l
  induction l with
  | nil => intro q _ hf; simp at hf
  | cons p rest ih =>
    intro q hnd hf
    rw [List.map_cons, List.nodup_cons] at hnd
    by_cases hp : (p.1 == k) = true
    · have hq : q = p := by
        simp only [List.find?, hp, Option.some.injEq] at hf
        exact hf.symm
      have hrest : rest.filter (fun x => !(x.1 == k)) = rest := by
        apply List.filter_eq_self.mpr
        intro a ha
        have hne : a.1 ≠ p.1 := by
          intro heq
          exact hnd.1 (heq ▸ List.mem_map.mpr ⟨a, ha, rfl⟩)
        have hpk : p.1 = k := by simpa using hp
        have hak : a.1 ≠ k := fun h2 => hne (h2.trans hpk.symm)
        simpa using hak
      rw [hq, List.filter_cons]
      simp only [hp, Bool.not_true, if_neg Bool.false_ne_true, hrest]
      exact List.Perm.refl _
    · have hpe : (p.1 == k) = false := by simpa using hp
      simp only [List.find?, hpe] at hf
      have ihp := ih q hnd.2 hf
      have hgoal : List.filter (fun x => !(x.1 == k)) (p :: rest)
          = p :: rest.filter (fun x => !(x.1 == k)) := by
        simp [List.filter_cons, hpe]
      rw [hgoal]
      exact (List.Perm.swap p q _).trans (List.Perm.cons p ihp)

theorem lru_touch_perm (k : Hash) (lru : Lru)
    (hnd : (lru.map (fun p => p.1)).Nodup) : (lru_touch lru k).Perm lru := by
  rcases hf : lru.find? (fun p => p.1 == k) with _ | q
  · simp only [lru_touch, hf]
    exact List.Perm.refl _
  · simp only [lru_touch, hf]
    exact find_filter_key_perm k lru q hnd hf

theorem push_to_matching_filter_length (ch : Hash) (w : Waiter) (h : Hash) :
    ∀ (l : List InteractionHandle),
      ((push_to_matching ch w l).filter (fun i => i.candidate_hash == h)).length
        = (l.filter (fun i => i.candidate_hash == h)).length := by
  intro l
  induction l with
  | nil => rfl
  | cons i rest ih =>
    unfold push_to_matching
    by_cases hc : i.candidate_hash == ch
    · rw [if_pos hc]
      by_cases hh : i.candidate_hash == h <;>
        simp [List.filter_cons, hh]
    · rw [if_neg hc]
      by_cases hh : i.candidate_hash == h <;>
        simp [List.filter_cons, hh, ih]

/-- C10: the backers phase never produces the outcome `Invalid`:
`RequestFromBackersPhase::run` either returns `Ok(data)` for a payload
whose re-encoding matches `erasure_root`, or `Err(Unavailable)` once the
shuffled backer list is exhausted — a payload failing the root check only
continues the loop — so the `Invalid` arm of the backers case in
`Interaction::run` is unreachable. -/
theorem backers_phase_never_invalid (c : ErasureCoding) (params : InteractionParams)
    (resp : ValidatorIndex → AvailableDataFetchingResponse)
    (backers : List ValidatorIndex) :
    ((∃ data, RequestFromBackersPhase.run c params resp backers = .ok data ∧
        reconstructed_data_matches_root c params.validators.length params.erasure_root data
          = true)
      ∨ RequestFromBackersPhase.run c params resp backers = .error .Unavailable)
    ∧ RequestFromBackersPhase.run c params resp backers ≠ .error .Invalid := by
  have h := backers_run_cases c params resp backers
  refine ⟨h, ?_⟩
  rcases h with ⟨d, hd, _⟩ | hu
  · rw [hd]; simp
  · rw [hu]; simp

/-- C7: for a completed chunk request in a wait wave, a `NoSuchChunk`
response or an `InvalidResponse` error leaves the fetcher state unchanged —
in particular the validator's index is not re-queued — while a
`NetworkError` or `Canceled` error pushes the validator's index back onto
the front of the pending shuffling deque (so it is retried only after the
fresh candidates, which the refill loop pops from the back). -/
theorem chunk_request_failure_requeue (c : ErasureCoding) (params : InteractionParams)
    (st : RequestChunksPhase) (vi : ValidatorIndex) :
    handle_request_result c params st .noSuchChunk = st
    ∧ handle_request_result c params st (.requestError vi .invalidResponse) = st
    ∧ handle_request_result c params st (.requestError vi .networkError)
        = { st with shuffling := vi :: st.shuffling }
    ∧ handle_request_result c params st (.requestError vi .canceled)
        = { st with shuffling := vi :: st.shuffling } :=
  ⟨rfl, rfl, rfl, rfl⟩

/-- C5: the chunks-phase main loop terminates with `Unavailable` exactly
when received + in-flight + pending chunks drop below the threshold (and
then the received count alone is also below the threshold); conversely a
state already below the threshold terminates at once with `Unavailable`,
and the loop never returns `Unavailable` while the sum is at least the
threshold. -/
theorem chunks_unavailable_iff (c : ErasureCoding) (params : InteractionParams)
    (st stf : RequestChunksPhase) (waves : List (List WaveEvent))
    (res : Except RecoveryError AvailableData) :
    (RequestChunksPhase.run_loop c params st waves = some (res, stf) →
      res = .error .Unavailable →
      stf.received_chunks.length + stf.requesting_chunks + stf.shuffling.length
          < params.threshold
        ∧ stf.received_chunks.length < params.threshold)
    ∧ (st.received_chunks.length + st.requesting_chunks + st.shuffling.length
          < params.threshold →
        RequestChunksPhase.run_loop c params st waves
          = some (.error .Unavailable, st)) := by
  constructor
  · intro h hres
    rcases run_loop_cases c params waves st h with ⟨_, hu⟩ | ⟨_, ha⟩
    · simp only [RequestChunksPhase.is_unavailable, is_unavailable,
        decide_eq_true_eq] at hu
      exact ⟨hu, by omega⟩
    · exact absurd (hres ▸ ha).symm (attempt_recovery_ne_unavailable c params stf)
  · intro h
    have hu : st.is_unavailable params = true := by
      simp only [RequestChunksPhase.is_unavailable, is_unavailable,
        decide_eq_true_eq]
      exact h
    unfold RequestChunksPhase.run_loop
    rw [if_pos hu]

theorem chunks_unavailable_iff_witness :
    RequestChunksPhase.run_loop unitCodec params1 (RequestChunksPhase.new 0) []
      = some (.error .Unavailable, RequestChunksPhase.new 0) :=
  (chunks_unavailable_iff unitCodec params1 (RequestChunksPhase.new 0)
    (RequestChunksPhase.new 0) [] (.error .Unavailable)).2 (by decide)

/-- C4: whenever the chunks-phase loop concludes with anything other than
`Unavailable`, the received-chunk count has reached the threshold and the
result is exactly the reconstruction attempt over the collected
(chunk bytes, index) pairs with the session's validator count: a
reconstruction error yields `Invalid`; on success the data is re-encoded
with `obtain_chunks` and the Merkle root of the branches is compared with
`erasure_root`, yielding `Recovered` on a match and `Invalid` on a
mismatch. -/
theorem chunks_reconstruction_attempt (c : ErasureCoding) (params : InteractionParams)
    (st stf : RequestChunksPhase) (waves : List (List WaveEvent))
    (res : Except RecoveryError AvailableData)
    (h : RequestChunksPhase.run_loop c params st waves = some (res, stf))
    (hne : res ≠ .error .Unavailable) :
    params.threshold ≤ stf.received_chunks.length
    ∧ res = attempt_recovery c params stf
    ∧ (c.reconstruct_v1 params.validators.length
          (stf.received_chunks.map (fun p => (p.2.chunk, p.2.index))) = none →
        res = .error .Invalid)
    ∧ ∀ data, c.reconstruct_v1 params.validators.length
          (stf.received_chunks.map (fun p => (p.2.chunk, p.2.index))) = some data →
        (reconstructed_data_matches_root c params.validators.length params.erasure_root data
            = true → res = .ok data)
        ∧ (reconstructed_data_matches_root c params.validators.length params.erasure_root
            data = false → res = .error .Invalid) := by
  rcases run_loop_cases c params waves st h with ⟨hres, _⟩ | ⟨hth, ha⟩
  · exact absurd hres hne
  · refine ⟨hth, ha, ?_, ?_⟩
    · intro hrec
      rw [ha]
      simp only [attempt_recovery, hrec]
    · intro data hrec
      constructor
      · intro hroot
        rw [ha]
        simp only [attempt_recovery, hrec, hroot, if_pos]
      · intro hroot
        rw [ha]
        simp [attempt_recovery, hrec, hroot]

theorem chunks_reconstruction_attempt_witness :
    params1.threshold
        ≤ (⟨[], [(0, ch0)], 0⟩ : RequestChunksPhase).received_chunks.length
    ∧ (Except.ok 7 : Except RecoveryError AvailableData)
        = attempt_recovery unitCodec params1 ⟨[], [(0, ch0)], 0⟩ := by
  have h := chunks_reconstruction_attempt unitCodec params1 ⟨[], [(0, ch0)], 0⟩
    ⟨[], [(0, ch0)], 0⟩ [[]] (.ok 7) (by decide) (by decide)
  exact ⟨h.1, h.2.1⟩

theorem interaction_loop_chunks_eq (c : ErasureCoding) (params : InteractionParams)
    (backers_resp : ValidatorIndex → AvailableDataFetchingResponse)
    (store_chunks : Option (List ErasureChunk)) (waves : List (List WaveEvent))
    (st : RequestChunksPhase) :
    interaction_loop c params backers_resp store_chunks waves (.requestChunks st)
      = (RequestChunksPhase.run c params store_chunks st waves).map (fun p => p.1) := by
  simp only [interaction_loop]

theorem interaction_loop_backers_eq (c : ErasureCoding) (params : InteractionParams)
    (backers_resp : ValidatorIndex → AvailableDataFetchingResponse)
    (store_chunks : Option (List ErasureChunk)) (waves : List (List WaveEvent))
    (bs : List ValidatorIndex) :
    interaction_loop c params backers_resp store_chunks waves (.requestFromBackers bs)
      = match RequestFromBackersPhase.run c params backers_resp bs with
        | .ok data => some (.ok data)
        | .error .Invalid => some (.error .Invalid)
        | .error .Unavailable =>
          (RequestChunksPhase.run c params store_chunks
            (RequestChunksPhase.new params.validators.length) waves).map
              (fun p => p.1) := by
  simp only [interaction_loop]

/-- C1 counterexample: the local-store path of `Interaction::run` returns
the store's payload without the root check, so with a codec whose
re-encoding root (`1`) differs from the candidate's `erasure_root` (`0`)
the recovery still returns `Recovered(42)` although the root check fails
on `42`. -/
theorem local_store_recovered_fails_root_check :
    Interaction.run badRootCodec params1 (some 42) (fun _ => .noSuchData) none []
        (.requestChunks (RequestChunksPhase.new 1)) = some (.ok 42)
    ∧ reconstructed_data_matches_root badRootCodec params1.validators.length
        params1.erasure_root 42 = false :=
  ⟨rfl, rfl⟩

/-- C1 amended: every `Recovered(data)` produced without a local-store hit —
that is, by the backers phase or the chunks phase — satisfies the root
check `Merkle-root(obtain_chunks(N, data)) = erasure_root`; the
local-store path performs no such check. -/
theorem recovered_without_local_hit_matches_root (c : ErasureCoding)
    (params : InteractionParams)
    (backers_resp : ValidatorIndex → AvailableDataFetchingResponse)
    (store_chunks : Option (List ErasureChunk)) (waves : List (List WaveEvent))
    (phase : InteractionPhase) (data : AvailableData)
    (h : Interaction.run c params none backers_resp store_chunks waves phase
        = some (.ok data)) :
    reconstructed_data_matches_root c params.validators.length params.erasure_root data
      = true := by
  unfold Interaction.run at h
  exact interaction_loop_ok_matches c params backers_resp store_chunks waves phase h

theorem recovered_without_local_hit_matches_root_witness :
    Interaction.run unitCodec params1 none (fun _ => .noSuchData) (some [ch0]) [[]]
        (.requestChunks (RequestChunksPhase.new 1)) = some (.ok 7)
    ∧ reconstructed_data_matches_root unitCodec params1.validators.length
        params1.erasure_root 7 = true := by
  have hrun : Interaction.run unitCodec params1 none (fun _ => .noSuchData) (some [ch0])
      [[]] (.requestChunks (RequestChunksPhase.new 1)) = some (.ok 7) := by
    show interaction_loop unitCodec params1 (fun _ => .noSuchData) (some [ch0]) [[]]
        (.requestChunks (RequestChunksPhase.new 1)) = some (.ok 7)
    rw [interaction_loop_chunks_eq]
    decide
  exact ⟨hrun,
    recovered_without_local_hit_matches_root unitCodec params1 (fun _ => .noSuchData)
      (some [ch0]) [[]] (.requestChunks (RequestChunksPhase.new 1)) 7 hrun⟩

/-- C2 counterexample: chunks seeded from the availability store are
inserted into `received_chunks` without Merkle verification: with a codec
whose Blake2-256 digest never equals the branch hash, the store-seeded
chunk `ch0` sits in the final `received_chunks` even though it fails the
Merkle condition. -/
theorem store_seeded_chunk_unverified :
    RequestChunksPhase.run badHashCodec params1 (some [ch0])
        (RequestChunksPhase.new 1) [[]]
      = some (.ok 0, ⟨[], [(0, ch0)], 0⟩)
    ∧ (0, ch0) ∈ (⟨[], [(0, ch0)], 0⟩ : RequestChunksPhase).received_chunks
    ∧ chunk_verified badHashCodec params1 ch0 = false := by
  refine ⟨by decide, by decide, by decide⟩

/-- C2 amended: every chunk the chunks-phase main loop adds to
`received_chunks` (i.e. every chunk received from the network in
`wait_for_chunks`) satisfies the Merkle condition
`Blake2-256(chunk.chunk) = branch_hash(erasure_root, chunk.proof, chunk.index)`;
chunks seeded from the availability store in `RequestChunksPhase::run` are
inserted without this verification and come verbatim from the store. -/
theorem chunks_received_verified_or_seeded (c : ErasureCoding)
    (params : InteractionParams) :
    (∀ (st stf : RequestChunksPhase) (waves : List (List WaveEvent))
        (res : Except RecoveryError AvailableData)
        (q : ValidatorIndex × ErasureChunk),
      RequestChunksPhase.run_loop c params st waves = some (res, stf) →
      q ∈ stf.received_chunks →
      q ∈ st.received_chunks ∨ chunk_verified c params q.2 = true)
    ∧ (∀ (chunks : List ErasureChunk) (st0 : RequestChunksPhase)
        (q : ValidatorIndex × ErasureChunk),
      q ∈ (seed_from_store chunks st0).received_chunks →
      q ∈ st0.received_chunks ∨ q.2 ∈ chunks) :=
  ⟨fun _ _ waves _ _ h hq => run_loop_mem c params waves _ h hq,
   fun chunks st0 _ hq => seed_from_store_mem chunks st0 hq⟩

theorem chunks_received_verified_or_seeded_witness :
    (0, ch0) ∈ (⟨[], [(0, ch0)], 0⟩ : RequestChunksPhase).received_chunks
      ∨ chunk_verified unitCodec params1 ch0 = true :=
  (chunks_received_verified_or_seeded unitCodec params1).1
    ⟨[], [(0, ch0)], 0⟩ ⟨[], [(0, ch0)], 0⟩ [[]] (.ok 7) (0, ch0)
    (by decide) (by decide)

/-- C3 counterexample: when every waiter's receiving end has been dropped,
`InteractionHandle::poll` completes with `None` even though the remote
task's result is there, and the event loop leaves `availability_lru`
untouched on a `None` completion — so the outcome is not inserted into the
LRU, contrary to the claim. -/
theorem dropped_waiters_outcome_not_cached :
    (InteractionHandle.poll ⟨7, [⟨true⟩]⟩ (some (.ok 5))).1 = Poll.ready none
    ∧ handle_interaction_output [] none = ([] : Lru)
    ∧ lru_get (handle_interaction_output [] none) 7 = none := by
  decide

/-- C3 amended: if every waiter's receiving end is dropped before the
recovery completes, `InteractionHandle::poll` yields `Ready(None)` without
broadcasting to anyone (and without polling the remote task, whose
`RemoteHandle` is dropped with the handle, cancelling it), and on a `None`
completion the event loop leaves the LRU unchanged — the outcome is
neither broadcast nor cached. -/
theorem dropped_waiters_skip_broadcast_and_cache (h : InteractionHandle)
    (remote : Option (Except RecoveryError AvailableData)) (lru : Lru)
    (hall : h.awaiting.all (fun w => w.canceled) = true) :
    InteractionHandle.poll h remote = (Poll.ready none, [])
    ∧ handle_interaction_output lru none = lru := by
  have hlive : h.awaiting.filter (fun w => !w.canceled) = [] := by
    rw [List.filter_eq_nil_iff]
    intro w hw
    have := List.all_eq_true.mp hall w hw
    simp [this]
  refine ⟨?_, rfl⟩
  unfold InteractionHandle.poll
  simp [hlive]

theorem dropped_waiters_skip_broadcast_and_cache_witness :
    InteractionHandle.poll ⟨3, [⟨true⟩, ⟨true⟩]⟩ none = (Poll.ready none, [])
    ∧ handle_interaction_output [(1, .error .Invalid)] none
        = ([(1, .error .Invalid)] : Lru) :=
  dropped_waiters_skip_broadcast_and_cache ⟨3, [⟨true⟩, ⟨true⟩]⟩ none
    [(1, .error .Invalid)] (by decide)

/-- C6: the backers phase is selected exactly when the subsystem runs in
fast-path mode, a backing group index accompanies the request, and the
session info contains that group (otherwise the task begins in the chunks
phase over all validators); and when the backers phase runs, `Recovered`
and `Invalid` are terminal for the recovery while `Unavailable`
transitions into the chunks phase, whose outcome becomes the recovery's
outcome. -/
theorem backers_phase_gating_and_dispatch (fast_path : Bool)
    (maybe_backing_group : Option Nat) (si : SessionInfoM)
    (c : ErasureCoding) (params : InteractionParams)
    (backers_resp : ValidatorIndex → AvailableDataFetchingResponse)
    (store_chunks : Option (List ErasureChunk)) (waves : List (List WaveEvent))
    (bs : List ValidatorIndex) (data : AvailableData) :
    (∀ group, select_phase si (filtered_backing_group fast_path maybe_backing_group)
          = .requestFromBackers group ↔
        (fast_path = true ∧ ∃ g, maybe_backing_group = some g ∧
          si.validator_groups.get? g = some group))
    ∧ ((∀ group, select_phase si (filtered_backing_group fast_path maybe_backing_group)
          ≠ .requestFromBackers group) →
        select_phase si (filtered_backing_group fast_path maybe_backing_group)
          = .requestChunks (RequestChunksPhase.new si.validators.length))
    ∧ (RequestFromBackersPhase.run c params backers_resp bs = .ok data →
        interaction_loop c params backers_resp store_chunks waves (.requestFromBackers bs)
          = some (.ok data))
    ∧ (RequestFromBackersPhase.run c params backers_resp bs = .error .Invalid →
        interaction_loop c params backers_resp store_chunks waves (.requestFromBackers bs)
          = some (.error .Invalid))
    ∧ (RequestFromBackersPhase.run c params backers_resp bs = .error .Unavailable →
        interaction_loop c params backers_resp store_chunks waves (.requestFromBackers bs)
          = interaction_loop c params backers_resp store_chunks waves
              (.requestChunks (RequestChunksPhase.new params.validators.length))) := by
  refine ⟨?_, ?_, ?_, ?_, ?_⟩
  · intro group
    cases fast_path with
    | false => simp [select_phase, filtered_backing_group]
    | true =>
      cases maybe_backing_group with
      | none => simp [select_phase, filtered_backing_group]
      | some g =>
        rcases hg : si.validator_groups.get? g with _ | grp <;>
          simp [select_phase, filtered_backing_group, hg] <;>
          aesop
  · intro hne
    cases fast_path with
    | false => simp [select_phase, filtered_backing_group]
    | true =>
      cases maybe_backing_group with
      | none => simp [select_phase, filtered_backing_group]
      | some g =>
        rcases hg : si.validator_groups.get? g with _ | grp
        all_goals rw [List.get?_eq_getElem?] at hg
        · simp [select_phase, filtered_backing_group, hg]
        · exact absurd (by simp [select_phase, filtered_backing_group, hg]) (hne grp)
  · intro hrun
    rw [interaction_loop_backers_eq, hrun]
  · intro hrun
    rw [interaction_loop_backers_eq, hrun]
  · intro hrun
    rw [interaction_loop_backers_eq, hrun, interaction_loop_chunks_eq]

theorem backers_phase_gating_and_dispatch_witness :
    interaction_loop unitCodec params1 (fun _ => .availableData 3) none []
      (.requestFromBackers [0]) = some (.ok 3) := by
  have h := backers_phase_gating_and_dispatch true (some 0) ⟨[0], [0], [[0]]⟩ unitCodec
    params1 (fun _ => .availableData 3) none [] [0] 3
  exact h.2.2.1 (by decide)

/-- C8: at most one active recovery per candidate hash: `handle_recover`
preserves uniqueness of candidate hashes among the in-flight interaction
handles, and when an interaction for the candidate hash is already in
flight (and the LRU misses, as it always does for a hash with a live
interaction since completion is what populates the LRU), the call only
appends the response sender to that interaction's waiter list — it spawns
no second task, performs no session-info query, and sends nothing
immediately. -/
theorem single_recovery_per_candidate (st : State) (candidate_hash : Hash)
    (session_info_resp : Option SessionInfoM) (w : Waiter) :
    ((∀ h, (st.interactions.filter (fun i => i.candidate_hash == h)).length ≤ 1) →
      ∀ h, (((handle_recover st candidate_hash session_info_resp w).1.interactions.filter
          (fun i => i.candidate_hash == h)).length ≤ 1))
    ∧ (lru_get st.availability_lru candidate_hash = none →
        st.interactions.any (fun i => i.candidate_hash == candidate_hash) = true →
        handle_recover st candidate_hash session_info_resp w
          = ({ st with interactions := push_to_matching candidate_hash w st.interactions },
             { sent_response := none, queried_session_info := false,
               spawned_task := false })) := by
  constructor
  · intro huniq h
    rcases hlru : lru_get st.availability_lru candidate_hash with _ | r
    · by_cases hany : st.interactions.any (fun i => i.candidate_hash == candidate_hash)
        = true
      · simp only [handle_recover, hlru, hany, if_pos]
        rw [push_to_matching_filter_length]
        exact huniq h
      · simp only [handle_recover, hlru, hany]
        rcases session_info_resp with _ | si
        · simp only
          exact huniq h
        · simp only [List.filter_append, List.length_append]
          by_cases hh : (candidate_hash == h) = true
          · have hch : candidate_hash = h := by simpa using hh
            have hall : ∀ i ∈ st.interactions, ¬ i.candidate_hash = candidate_hash := by
              simpa using hany
            have hfil : st.interactions.filter (fun i => i.candidate_hash == h) = [] := by
              rw [List.filter_eq_nil_iff]
              intro i hi hc
              exact hall i hi (by simpa [hch] using hc)
            simp [hfil, List.filter_cons, hh]
          · have hh2 : (candidate_hash == h) = false := by simpa using hh
            simpa [List.filter_cons, hh2] using huniq h
    · simp only [handle_recover, hlru]
      exact huniq h
  · intro hlru hany
    simp only [handle_recover, hlru, hany, if_pos]

theorem single_recovery_per_candidate_witness :
    handle_recover ⟨[⟨5, [⟨false⟩]⟩], (0, 0), []⟩ 5 none ⟨false⟩
      = (⟨[⟨5, [⟨false⟩, ⟨false⟩]⟩], (0, 0), []⟩,
         ⟨none, false, false⟩) :=
  (single_recovery_per_candidate ⟨[⟨5, [⟨false⟩]⟩], (0, 0), []⟩ 5 none ⟨false⟩).2
    (by decide) (by decide)

/-- C9: a recover call for a candidate hash whose outcome is already in
the LRU sends exactly the cached outcome on the response channel and
spawns no task, queries no session info, and touches neither the
interaction set nor the live block; the LRU keeps the same entries, only
promoted in recency order. -/
theorem cache_hit_returns_cached (st : State) (candidate_hash : Hash)
    (session_info_resp : Option SessionInfoM) (w : Waiter)
    (result : Except RecoveryError AvailableData)
    (hhit : lru_get st.availability_lru candidate_hash = some result) :
    (handle_recover st candidate_hash session_info_resp w).2
        = { sent_response := some result, queried_session_info := false,
            spawned_task := false }
    ∧ (handle_recover st candidate_hash session_info_resp w).1.interactions
        = st.interactions
    ∧ (handle_recover st candidate_hash session_info_resp w).1.live_block = st.live_block
    ∧ (handle_recover st candidate_hash session_info_resp w).1.availability_lru
        = lru_touch st.availability_lru candidate_hash
    ∧ ((st.availability_lru.map (fun p => p.1)).Nodup →
        ((handle_recover st candidate_hash session_info_resp w).1.availability_lru).Perm
          st.availability_lru) := by
  have hr : handle_recover st candidate_hash session_info_resp w
      = ({ st with availability_lru := lru_touch st.availability_lru candidate_hash },
         { sent_response := some result, queried_session_info := false,
           spawned_task := false }) := by
    simp only [handle_recover, hhit]
  rw [hr]
  exact ⟨rfl, rfl, rfl, rfl,
    fun hnd => lru_touch_perm candidate_hash st.availability_lru hnd⟩

theorem cache_hit_returns_cached_witness :
    (handle_recover ⟨[], (0, 0), [(5, .ok 9)]⟩ 5 none ⟨false⟩).2
      = { sent_response := some (.ok 9), queried_session_info := false,
          spawned_task := false } :=
  (cache_hit_returns_cached ⟨[], (0, 0), [(5, .ok 9)]⟩ 5 none ⟨false⟩ (.ok 9)
    (by decide)).1

end AvailabilityRecovery
